import Mathlib

/-!
Shallow embedding of the `pool` repository's withdrawal-verification library
(`src/lib/src/lib.rs`) and of the program entrypoint's output encoding
(`src/program/src/main.rs`), together with theorems settling the frozen
claims about it.

Modelling conventions:
* Byte strings are `List Nat` (each entry a byte value); 256-bit words,
  storage keys, hashes and addresses are `Nat` values interpreted mod `2 ^ 256`
  (mod `2 ^ 160` for addresses), with explicit big-endian conversions where
  the Rust code converts.
* External cryptographic and trie primitives (the `keccak256` hash, the
  `alloy` RLP encoder, and `alloy_trie::proof::verify_proof`) are not part of
  this repository; they are abstracted as the fields of an `Externals` record and
  quantified over in the theorems.
* Rust `Result` is `Except String` carrying the `eyre` error message;
  a Rust arithmetic-overflow panic (the `1u32 << i` shift with `i ≥ 32` in
  `compute_inclusion_root`, under overflow checks) is modelled as `Option`
  `none` at the function itself.
-/

/-- Big-endian byte encoding of `n` in exactly `w` bytes (the value is taken
mod `256 ^ w`, as a Rust fixed-width `to_be_bytes` does). -/
def toBe : Nat → Nat → List Nat
  | 0, _ => []
  | w + 1, n => n / 256 ^ w % 256 :: toBe w n

/-- Big-endian interpretation of a byte string as a natural number
(`U256::from_be_slice` / `from_be_bytes` on 32-byte strings). -/
def fromBe (l : List Nat) : Nat :=
  l.foldl (fun a b => 256 * a + b) 0

theorem toBe_length (w n : Nat) : (toBe w n).length = w := by
  induction w generalizing n with
  | zero => rfl
  | succ w ih => simp [toBe, ih]

theorem fromBe_foldl (w n a : Nat) :
    List.foldl (fun x b => 256 * x + b) a (toBe w n) = a * 256 ^ w + n % 256 ^ w := by
  induction w generalizing a with
  | zero => simp [toBe, Nat.mod_one]
  | succ w ih =>
    have hsplit : n % 256 ^ (w + 1) = n % 256 ^ w + 256 ^ w * (n / 256 ^ w % 256) := by
      have := Nat.mod_mul (a := 256 ^ w) (b := 256) (x := n)
      simpa [pow_succ] using this
    simp only [toBe, List.foldl_cons, ih]
    rw [hsplit]
    ring

theorem fromBe_toBe (w n : Nat) : fromBe (toBe w n) = n % 256 ^ w := by
  simpa [fromBe] using fromBe_foldl w n 0

theorem toBe_inj {w m n : Nat} (hm : m < 256 ^ w) (hn : n < 256 ^ w)
    (h : toBe w m = toBe w n) : m = n := by
  have := congrArg fromBe h
  rwa [fromBe_toBe, fromBe_toBe, Nat.mod_eq_of_lt hm, Nat.mod_eq_of_lt hn] at this

theorem pow256_32 : (256 : Nat) ^ 32 = 2 ^ 256 := by norm_num

/-- Nibble decomposition of a byte string, high nibble first
(`alloy_trie::Nibbles::unpack`). -/
def nibblesUnpack (bytes : List Nat) : List Nat :=
  bytes.foldr (fun b acc => b / 16 :: b % 16 :: acc) []

/-- The account record whose RLP encoding is proven in the world-state trie
(`alloy_trie::TrieAccount`). -/
structure TrieAccount where
  nonce : Nat
  balance : Nat
  storage_root : Nat
  code_hash : Nat
deriving DecidableEq

/-- The values the library RLP-encodes before a trie lookup: a `U256` storage
word, a `B256` hash, or a `TrieAccount`. -/
inductive RlpValue where
  | u256 (n : Nat)
  | b256 (n : Nat)
  | account (a : TrieAccount)
deriving DecidableEq

/-- External primitives used by the library but implemented outside this
repository: `keccak` is the `keccak256` hash on byte strings (its value read
back as a number), `rlp` is the `alloy` RLP encoder for the three value shapes
the library encodes, and `trieVerify root key value nodes` is
`alloy_trie::proof::verify_proof`, the Merkle-Patricia-Trie path check of
`key ↦ value` under `root` given the ordered proof nodes. -/
structure Externals where
  keccak : List Nat → Nat
  rlp : RlpValue → List Nat
  trieVerify : Nat → List Nat → Option (List Nat) → List (List Nat) → Bool

/-- One entry of `EIP1186AccountProofResponse.storage_proof`; the library reads
only `value` and `proof`. -/
structure StorageProofEntry where
  key : Nat
  value : Nat
  proof : List (List Nat)
deriving DecidableEq

/-- The fields of `EIP1186AccountProofResponse` the library reads. -/
structure AccountProofBundle where
  address : Nat
  balance : Nat
  code_hash : Nat
  nonce : Nat
  storage_hash : Nat
  account_proof : List (List Nat)
  storage_proof : List StorageProofEntry
deriving DecidableEq

/-- The fields of the `alloy` consensus `Header` the program reads, plus
`encoding`, which stands for the header's RLP encoding (computed by `alloy`,
outside this repository) that `num_hash_slow` hashes. -/
structure Header where
  state_root : Nat
  number : Nat
  encoding : List Nat
deriving DecidableEq

/-- Result of `Header::num_hash_slow` (`alloy` `BlockNumHash`). -/
structure BlockNumHash where
  number : Nat
  hash : Nat
deriving DecidableEq

/-- Inclusion branches and an index for proving that a commitment is in an
array of commitments (`InclusionBranches` in `src/lib/src/lib.rs`; `index` is
a `u32`). -/
structure InclusionBranches where
  index : Nat
  proof : List Nat
deriving DecidableEq

/-- The private inputs for the withdrawal proof (`WithdrawalInput`). -/
structure WithdrawalInput where
  secret : Nat
  array_index : Nat
  account_proof : AccountProofBundle
  block_header : Header
  inclusion_set_branches : Option InclusionBranches
  contract_address : Nat
  array_slot : Nat
  relayer_fee : Nat
  recipient : Nat
  relayer : Nat
deriving DecidableEq

/-- The public output record, with the fields in the declaration order of the
`sol!` struct `WithdrawalData` in `src/lib/src/lib.rs` (note `blockNumber` is
declared last). -/
structure WithdrawalData where
  nullifier : Nat
  blockHash : Nat
  exclusionSetRoot : Nat
  relayerFee : Nat
  recipient : Nat
  relayer : Nat
  contractAddress : Nat
  blockNumber : Nat
deriving DecidableEq

/-- Compute commitment and nullifier from secret (`compute_commitment`):
read the 32-byte secret big-endian, hash its 32-byte encoding, and hash the
32-byte encoding of its wrapping successor. -/
def compute_commitment (keccak : List Nat → Nat) (secret : Nat) : Nat × Nat :=
  let u := secret % 2 ^ 256
  (keccak (toBe 32 u), keccak (toBe 32 ((u + 1) % 2 ^ 256)))

/-- Loop body of `compute_inclusion_root`: the Rust `bits & (1 << i)` test is
a `u32` shift, which overflows (panics under Rust overflow checks) as soon as
`i ≥ 32`; that abort is modelled as `none`. A clear bit hashes
`root ++ sibling`, a set bit hashes `sibling ++ root`. -/
def inclusionGo (keccak : List Nat → Nat) (bits : Nat) : Nat → Nat → List Nat → Option Nat
  | _, root, [] => some root
  | i, root, sibling :: rest =>
    if 32 ≤ i then none
    else
      inclusionGo keccak bits (i + 1)
        (if Nat.testBit bits i then keccak (toBe 32 sibling ++ toBe 32 root)
         else keccak (toBe 32 root ++ toBe 32 sibling)) rest

/-- Compute inclusion set root from commitment, index, and branches
(`compute_inclusion_root`). -/
def compute_inclusion_root (keccak : List Nat → Nat) (commitment : Nat)
    (branches : InclusionBranches) : Option Nat :=
  inclusionGo keccak branches.index 0 commitment branches.proof

/-- Hash block header (`hash_block_header`, via `Header::num_hash_slow`). -/
def hash_block_header (ext : Externals) (header : Header) : BlockNumHash :=
  { number := header.number, hash := ext.keccak header.encoding }

/-- Verify a Merkle Patricia Trie proof (`verify_mpt_proof`): look the key up
under the keccak hash of the raw key unpacked to nibbles, against the RLP
encoding of the raw value; any failure of the underlying path check becomes
the single error message `invalid proof`. -/
def verify_mpt_proof (ext : Externals) (root : Nat) (raw_key : List Nat)
    (raw_value : RlpValue) (proof : List (List Nat)) : Except String Unit :=
  if ext.trieVerify root (nibblesUnpack (toBe 32 (ext.keccak raw_key)))
      (some (ext.rlp raw_value)) proof then
    .ok ()
  else
    .error "invalid proof"

/-- Verify the commitment is in `array[array_index]` where the array is stored
in `array_slot` of `contract_address` (`verify_storage_slot`). The `U256`
addition computing the element key is modelled wrapping mod `2 ^ 256`. -/
def verify_storage_slot (ext : Externals) (contract_address array_slot commitment array_index
    state_root : Nat) (proof : AccountProofBundle) : Except String Unit :=
  if contract_address ≠ proof.address then .error "invalid contract address"
  else
    match verify_mpt_proof ext state_root (toBe 20 proof.address)
        (.account { nonce := proof.nonce, balance := proof.balance,
                    storage_root := proof.storage_hash, code_hash := proof.code_hash })
        proof.account_proof with
    | .error e => .error e
    | .ok _ =>
      if proof.storage_proof.length ≠ 2 then .error "invalid storage proof"
      else
        match proof.storage_proof with
        | array_len_proof :: commitment_proof :: _ =>
          match verify_mpt_proof ext proof.storage_hash (toBe 32 array_slot)
              (.u256 array_len_proof.value) array_len_proof.proof with
          | .error e => .error e
          | .ok _ =>
            if ¬ array_index < array_len_proof.value then .error "invalid array index"
            else
              verify_mpt_proof ext proof.storage_hash
                (toBe 32 ((ext.keccak (toBe 32 array_slot) % 2 ^ 256 + array_index) % 2 ^ 256))
                (.b256 commitment) commitment_proof.proof
        | _ => .error "invalid storage proof"

/-- Process a withdrawal, fully verifying it and returning public data
(`process_withdrawal`); an overflow abort inside `compute_inclusion_root` is
surfaced as the error `panic: shift overflow`. -/
def process_withdrawal (ext : Externals) (input : WithdrawalInput) :
    Except String WithdrawalData :=
  let cn := compute_commitment ext.keccak input.secret
  let block_hash := hash_block_header ext input.block_header
  match verify_storage_slot ext input.contract_address input.array_slot cn.1
      input.array_index input.block_header.state_root input.account_proof with
  | .error e => .error e
  | .ok _ =>
    match (match input.inclusion_set_branches with
           | some branches => compute_inclusion_root ext.keccak cn.1 branches
           | none => some 0) with
    | none => .error "panic: shift overflow"
    | some inclusion_root =>
      .ok { nullifier := cn.2, blockNumber := block_hash.number,
            blockHash := block_hash.hash, contractAddress := input.contract_address,
            exclusionSetRoot := inclusion_root, relayerFee := input.relayer_fee,
            recipient := input.recipient, relayer := input.relayer }

/-- ABI encoding of the `WithdrawalData` record as committed by the program
(`data.abi_encode()` in `src/program/src/main.rs`): the struct has only
statically-encoded fields, so the Solidity ABI lays it out as one 32-byte
big-endian slot per field in declaration order, numbers and addresses
left-padded with zero bytes. -/
def WithdrawalData.abi_encode (d : WithdrawalData) : List Nat :=
  toBe 32 d.nullifier ++ toBe 32 d.blockHash ++ toBe 32 d.exclusionSetRoot ++
  toBe 32 d.relayerFee ++ toBe 32 d.recipient ++ toBe 32 d.relayer ++
  toBe 32 d.contractAddress ++ toBe 32 d.blockNumber

deriving instance DecidableEq for Except

/-- Error kinds named by the specification for `verify_storage_slot`
(spec section 7). -/
inductive VerifyError where
  | AddressMismatch
  | InvalidAccountProof
  | MalformedProofShape
  | InvalidLengthProof
  | IndexOutOfRange
  | InvalidElementProof
deriving DecidableEq

/-- The error message the implementation actually produces for each
spec-level error kind; the three trie-proof failures all render to the same
message. -/
def renderError : VerifyError → String
  | .AddressMismatch => "invalid contract address"
  | .InvalidAccountProof => "invalid proof"
  | .MalformedProofShape => "invalid storage proof"
  | .InvalidLengthProof => "invalid proof"
  | .IndexOutOfRange => "invalid array index"
  | .InvalidElementProof => "invalid proof"

/-- Modelled from the spec: section 4.3 `verify_storage_slot`, steps 1-7 in
order, with the typed error taxonomy of section 7 — address check, account
proof against the state root with key `contract_address`, exactly two storage
proofs, length proof at `array_slot`, index bound against the claimed length,
and element proof at `hash(array_slot) + array_index` with expected value the
commitment. -/
def spec_verify_storage_slot (ext : Externals) (contract_address array_slot commitment
    array_index state_root : Nat) (bundle : AccountProofBundle) :
    Except VerifyError Unit :=
  if bundle.address ≠ contract_address then .error .AddressMismatch
  else
    match verify_mpt_proof ext state_root (toBe 20 contract_address)
        (.account { nonce := bundle.nonce, balance := bundle.balance,
                    storage_root := bundle.storage_hash, code_hash := bundle.code_hash })
        bundle.account_proof with
    | .error _ => .error .InvalidAccountProof
    | .ok _ =>
      match bundle.storage_proof with
      | [len_entry, elem_entry] =>
        match verify_mpt_proof ext bundle.storage_hash (toBe 32 array_slot)
            (.u256 len_entry.value) len_entry.proof with
        | .error _ => .error .InvalidLengthProof
        | .ok _ =>
          if len_entry.value ≤ array_index then .error .IndexOutOfRange
          else
            match verify_mpt_proof ext bundle.storage_hash
                (toBe 32 ((ext.keccak (toBe 32 array_slot) % 2 ^ 256 + array_index) % 2 ^ 256))
                (.b256 commitment) elem_entry.proof with
            | .error _ => .error .InvalidElementProof
            | .ok _ => .ok ()
      | _ => .error .MalformedProofShape

/-- Modelled from the spec: section 4.1 `compute_inclusion_root` loop — for
depth `i`, a clear bit `i` of the index hashes `root ++ sibling`, a set bit
hashes `sibling ++ root`; total on every sibling list. -/
def specInclusionGo (keccak : List Nat → Nat) (bits : Nat) : Nat → Nat → List Nat → Nat
  | _, root, [] => root
  | i, root, sibling :: rest =>
    specInclusionGo keccak bits (i + 1)
      (if Nat.testBit bits i then keccak (toBe 32 sibling ++ toBe 32 root)
       else keccak (toBe 32 root ++ toBe 32 sibling)) rest

/-- Modelled from the spec: the inclusion-root fold of section 4.1, starting
from the leaf at depth 0. -/
def specInclusionRoot (keccak : List Nat → Nat) (leaf : Nat)
    (branches : InclusionBranches) : Nat :=
  specInclusionGo keccak branches.index 0 leaf branches.proof

/-- Modelled from the spec: the section 6 output layout claimed by the spec —
`nullifier | blockNumber (right-padded uint64) | blockHash | exclusionSetRoot |
relayerFee | recipient | relayer | contractAddress`. -/
def specClaimedAbiEncode (d : WithdrawalData) : List Nat :=
  toBe 32 d.nullifier ++ (toBe 8 d.blockNumber ++ List.replicate 24 0) ++
  toBe 32 d.blockHash ++ toBe 32 d.exclusionSetRoot ++ toBe 32 d.relayerFee ++
  toBe 32 d.recipient ++ toBe 32 d.relayer ++ toBe 32 d.contractAddress

/-- A concrete stand-in hash for evaluating the model on closed inputs: the
big-endian value of the byte string, reduced mod `2 ^ 256`. -/
def hashMock (l : List Nat) : Nat :=
  fromBe l % 2 ^ 256

/-- A concrete stand-in RLP encoder for evaluating the model on closed
inputs. -/
def rlpMock : RlpValue → List Nat
  | .u256 n => toBe 32 n
  | .b256 n => toBe 32 n
  | .account a =>
    toBe 32 a.nonce ++ toBe 32 a.balance ++ toBe 32 a.storage_root ++ toBe 32 a.code_hash

/-- Concrete externals whose trie verifier accepts everything, for exercising
the success paths of the model on closed inputs. -/
def extAccept : Externals :=
  { keccak := hashMock, rlp := rlpMock, trieVerify := fun _ _ _ _ => true }

/-- Concrete externals whose trie verifier rejects everything. -/
def extReject : Externals :=
  { keccak := hashMock, rlp := rlpMock, trieVerify := fun _ _ _ _ => false }

/-- Concrete externals whose trie verifier accepts exactly the queries made
under root `1` (the state root below), so the account proof passes and the
first storage proof fails. -/
def extRootOne : Externals :=
  { keccak := hashMock, rlp := rlpMock, trieVerify := fun root _ _ _ => root == 1 }

/-- A concrete proof bundle: contract account at address `7` with storage
hash `2`, and two storage proofs whose first entry claims array length `5`. -/
def okBundle : AccountProofBundle :=
  { address := 7, balance := 0, code_hash := 0, nonce := 0, storage_hash := 2,
    account_proof := [],
    storage_proof := [{ key := 0, value := 5, proof := [] },
                      { key := 0, value := 0, proof := [] }] }

/-- A concrete header with state root `1` and block number `9`. -/
def okHeader : Header :=
  { state_root := 1, number := 9, encoding := [] }

/-- A concrete withdrawal input that succeeds under `extAccept`: secret `3`,
boundary index `4` into the length-`5` array, no inclusion branches. -/
def okInput : WithdrawalInput :=
  { secret := 3, array_index := 4, account_proof := okBundle, block_header := okHeader,
    inclusion_set_branches := none, contract_address := 7, array_slot := 0,
    relayer_fee := 4, recipient := 8, relayer := 6 }

/-- The output record `process_withdrawal extAccept okInput` produces:
under `hashMock` the commitment of secret `3` is `3` and the nullifier `4`,
and the hash of the empty header encoding is `0`. -/
def okData : WithdrawalData :=
  { nullifier := 4, blockHash := 0, exclusionSetRoot := 0, relayerFee := 4,
    recipient := 8, relayer := 6, contractAddress := 7, blockNumber := 9 }


theorem verify_mpt_proof_error {ext : Externals} {root : Nat} {k : List Nat}
    {v : RlpValue} {p : List (List Nat)} {e : String}
    (h : verify_mpt_proof ext root k v p = .error e) : e = "invalid proof" := by
  unfold verify_mpt_proof at h
  split at h
  · cases h
  · cases h; rfl

theorem verify_storage_slot_eq_spec (ext : Externals) (ca slot comm idx sr : Nat)
    (bundle : AccountProofBundle) :
    verify_storage_slot ext ca slot comm idx sr bundle =
      Except.mapError renderError (spec_verify_storage_slot ext ca slot comm idx sr bundle) := by
  obtain ⟨addr, bal, ch, non, sh, ap, sp⟩ := bundle
  unfold verify_storage_slot spec_verify_storage_slot
  dsimp only
  by_cases haddr : ca = addr
  · subst haddr
    have hno : ¬ (ca ≠ ca) := fun h => h rfl
    simp only [if_neg hno]
    generalize hA : verify_mpt_proof ext sr (toBe 20 ca)
      (RlpValue.account { nonce := non, balance := bal, storage_root := sh, code_hash := ch })
      ap = A
    cases A with
    | error e => simp [Except.mapError, renderError, verify_mpt_proof_error hA]
    | ok a =>
      rcases sp with _ | ⟨p0, _ | ⟨p1, _ | ⟨p2, rest⟩⟩⟩
      · simp [Except.mapError, renderError]
      · simp [Except.mapError, renderError]
      · have h2 : ¬ ((p0 :: p1 :: ([] : List StorageProofEntry)).length ≠ 2) := by simp
        rw [if_neg h2]
        dsimp only
        generalize hL : verify_mpt_proof ext sh (toBe 32 slot)
          (RlpValue.u256 p0.value) p0.proof = B
        cases B with
        | error e => simp [Except.mapError, renderError, verify_mpt_proof_error hL]
        | ok b =>
          by_cases hidx : idx < p0.value
          · rw [if_neg (not_not_intro hidx), if_neg (by omega)]
            generalize hE : verify_mpt_proof ext sh
              (toBe 32 ((ext.keccak (toBe 32 slot) % 2 ^ 256 + idx) % 2 ^ 256))
              (RlpValue.b256 comm) p1.proof = C
            cases C with
            | error e => simp [Except.mapError, renderError, verify_mpt_proof_error hE]
            | ok c => simp [Except.mapError]
          · rw [if_pos hidx, if_pos (by omega)]
            simp [Except.mapError, renderError]
      · rw [if_pos (by simp)]
        simp [Except.mapError, renderError]
  · rw [if_pos haddr, if_pos (fun h => haddr h.symm)]
    simp [Except.mapError, renderError]

theorem inclusionGo_eq_spec (keccak : List Nat → Nat) (bits : Nat) :
    ∀ (rest : List Nat) (i root : Nat), i + rest.length ≤ 32 →
      inclusionGo keccak bits i root rest = some (specInclusionGo keccak bits i root rest) := by
  intro rest
  induction rest with
  | nil => intro i root _; rfl
  | cons s t ih =>
    intro i root h
    have hi : ¬ 32 ≤ i := by simp at h ⊢; omega
    rw [inclusionGo, if_neg hi, specInclusionGo]
    exact ih (i + 1) _ (by simp at h ⊢; omega)

theorem inclusionGo_isSome (keccak : List Nat → Nat) (bits : Nat) :
    ∀ (rest : List Nat) (i root : Nat), i ≤ 32 →
      ((inclusionGo keccak bits i root rest).isSome ↔ i + rest.length ≤ 32) := by
  intro rest
  induction rest with
  | nil =>
    intro i root hi
    rw [inclusionGo]
    simpa using hi
  | cons s t ih =>
    intro i root hi
    by_cases h32 : 32 ≤ i
    · have hieq : i = 32 := le_antisymm hi h32
      rw [inclusionGo, if_pos h32]
      simp [hieq]
    · rw [inclusionGo, if_neg h32]
      rw [ih (i + 1) _ (by omega)]
      simp
      omega

theorem inclusionGo_congr (keccak : List Nat → Nat) (b1 b2 : Nat) :
    ∀ (rest : List Nat) (i root : Nat),
      (∀ k, i ≤ k → k < i + rest.length → Nat.testBit b1 k = Nat.testBit b2 k) →
      inclusionGo keccak b1 i root rest = inclusionGo keccak b2 i root rest := by
  intro rest
  induction rest with
  | nil => intro i root _; rfl
  | cons s t ih =>
    intro i root h
    by_cases h32 : 32 ≤ i
    · rw [inclusionGo, if_pos h32, inclusionGo, if_pos h32]
    · rw [inclusionGo, if_neg h32, inclusionGo, if_neg h32]
      rw [h i le_rfl (by simp)]
      exact ih (i + 1) _ fun k hk1 hk2 => h k (by omega) (by simp at hk2 ⊢; omega)

theorem inclusionGo_append (keccak : List Nat → Nat) (bits : Nat) :
    ∀ (l1 l2 : List Nat) (i root : Nat),
      inclusionGo keccak bits i root (l1 ++ l2) =
        (inclusionGo keccak bits i root l1).bind
          (fun r => inclusionGo keccak bits (i + l1.length) r l2) := by
  intro l1
  induction l1 with
  | nil => intro l2 i root; simp [inclusionGo]
  | cons s t ih =>
    intro l2 i root
    by_cases h32 : 32 ≤ i
    · rw [List.cons_append, inclusionGo, if_pos h32, inclusionGo, if_pos h32]
      rfl
    · rw [List.cons_append, inclusionGo, if_neg h32, inclusionGo, if_neg h32, ih]
      simp [Nat.add_comm, Nat.add_assoc, Nat.add_left_comm]

theorem inclusionGo_lt (keccak : List Nat → Nat) (bits : Nat)
    (hk : ∀ l, keccak l < 2 ^ 256) :
    ∀ (rest : List Nat) (i root r : Nat), root < 2 ^ 256 →
      inclusionGo keccak bits i root rest = some r → r < 2 ^ 256 := by
  intro rest
  induction rest with
  | nil =>
    intro i root r hroot h
    rw [inclusionGo] at h
    cases h
    exact hroot
  | cons s t ih =>
    intro i root r hroot h
    by_cases h32 : 32 ≤ i
    · rw [inclusionGo, if_pos h32] at h; cases h
    · rw [inclusionGo, if_neg h32] at h
      exact ih (i + 1) _ r (by split <;> exact hk _) h

theorem toBe32_lt_inj {r s : Nat} (hr : r < 2 ^ 256) (hs : s < 2 ^ 256)
    (h : toBe 32 r = toBe 32 s) : r = s :=
  toBe_inj (pow256_32 ▸ hr) (pow256_32 ▸ hs) h

theorem inclusionGo_ne (keccak : List Nat → Nat) (bits : Nat)
    (hk : ∀ l, keccak l < 2 ^ 256) :
    ∀ (rest : List Nat) (i r r2 : Nat), r < 2 ^ 256 → r2 < 2 ^ 256 → r ≠ r2 →
      i + rest.length ≤ 32 →
      inclusionGo keccak bits i r rest ≠ inclusionGo keccak bits i r2 rest ∨
      ∃ x y, x ≠ y ∧ keccak x = keccak y := by
  intro rest
  induction rest with
  | nil =>
    intro i r r2 _ _ hne _
    left
    rw [inclusionGo, inclusionGo]
    exact fun h => hne (Option.some_injective _ h)
  | cons s t ih =>
    intro i r r2 hr hr2 hne hb
    have h32 : ¬ 32 ≤ i := by simp only [List.length_cons] at hb; omega
    rw [inclusionGo, if_neg h32, inclusionGo, if_neg h32]
    cases hbit : Nat.testBit bits i with
    | true =>
      simp only [if_pos]
      have hxy : toBe 32 s ++ toBe 32 r ≠ toBe 32 s ++ toBe 32 r2 :=
        fun h => hne (toBe32_lt_inj hr hr2 (List.append_cancel_left h))
      by_cases hcol : keccak (toBe 32 s ++ toBe 32 r) = keccak (toBe 32 s ++ toBe 32 r2)
      · exact Or.inr ⟨_, _, hxy, hcol⟩
      · exact ih (i + 1) _ _ (hk _) (hk _) hcol (by simp only [List.length_cons] at hb; omega)
    | false =>
      simp only [Bool.false_eq_true, if_false]
      have hxy : toBe 32 r ++ toBe 32 s ≠ toBe 32 r2 ++ toBe 32 s :=
        fun h => hne (toBe32_lt_inj hr hr2 (List.append_cancel_right h))
      by_cases hcol : keccak (toBe 32 r ++ toBe 32 s) = keccak (toBe 32 r2 ++ toBe 32 s)
      · exact Or.inr ⟨_, _, hxy, hcol⟩
      · exact ih (i + 1) _ _ (hk _) (hk _) hcol (by simp only [List.length_cons] at hb; omega)

theorem verify_mpt_proof_ne_index_error (ext : Externals) (root : Nat) (k : List Nat)
    (v : RlpValue) (p : List (List Nat)) :
    verify_mpt_proof ext root k v p ≠ .error "invalid array index" := by
  unfold verify_mpt_proof
  split
  · exact fun h => Except.noConfusion h
  · intro h
    injection h with h2
    exact absurd h2 (by decide)

/-- C2: the checks of `verify_storage_slot` run in the stated order, but the
error kinds are not all distinct: the implementation equals the spec-ordered
check composed with `renderError`, which maps the account-proof, length-proof
and element-proof failures to one and the same message. -/
theorem c2_check_order_and_errors (ext : Externals) (ca slot comm idx sr : Nat)
    (bundle : AccountProofBundle) :
    verify_storage_slot ext ca slot comm idx sr bundle =
      Except.mapError renderError (spec_verify_storage_slot ext ca slot comm idx sr bundle) :=
  verify_storage_slot_eq_spec ext ca slot comm idx sr bundle

/-- C2 counterexample: one concrete run fails at the account-proof check and
another passes it and fails at the length-proof check, yet both return the
identical error value, so a caller cannot distinguish the two failure
modes. -/
theorem c2_counterexample :
    verify_storage_slot extReject 7 0 3 0 1 okBundle = .error "invalid proof"
    ∧ verify_storage_slot extRootOne 7 0 3 0 1 okBundle = .error "invalid proof"
    ∧ verify_mpt_proof extReject 1 (toBe 20 7)
        (.account { nonce := 0, balance := 0, storage_root := 2, code_hash := 0 }) []
        = .error "invalid proof"
    ∧ verify_mpt_proof extRootOne 1 (toBe 20 7)
        (.account { nonce := 0, balance := 0, storage_root := 2, code_hash := 0 }) []
        = .ok () := by
  refine ⟨?_, ?_, ?_, ?_⟩ <;> decide

/-- C3: once the address, account-proof, shape and length-proof checks have
passed, `verify_storage_slot` fails with the index error exactly when
`array_index ≥ claimed_length`, and an otherwise-valid concrete bundle
succeeds at the boundary `array_index = claimed_length - 1` (index 4 against
claimed length 5). -/
theorem c3_index_bound (ext : Externals) (ca slot comm idx sr : Nat)
    (bundle : AccountProofBundle) (p0 p1 : StorageProofEntry)
    (hsp : bundle.storage_proof = [p0, p1])
    (haddr : bundle.address = ca)
    (hacc : verify_mpt_proof ext sr (toBe 20 bundle.address)
      (.account { nonce := bundle.nonce, balance := bundle.balance,
                  storage_root := bundle.storage_hash, code_hash := bundle.code_hash })
      bundle.account_proof = .ok ())
    (hlen : verify_mpt_proof ext bundle.storage_hash (toBe 32 slot)
      (.u256 p0.value) p0.proof = .ok ()) :
    (verify_storage_slot ext ca slot comm idx sr bundle = .error "invalid array index" ↔
      p0.value ≤ idx)
    ∧ verify_storage_slot extAccept 7 0 3 4 1 okBundle = .ok () := by
  constructor
  · unfold verify_storage_slot
    rw [if_neg (fun h => h haddr.symm), hacc, hsp]
    dsimp only
    rw [hlen]
    dsimp only [List.length_cons, List.length_nil]
    rw [if_neg (by omega)]
    by_cases h : p0.value ≤ idx
    · rw [if_pos (by omega)]
      simp [h]
    · rw [if_neg (by omega)]
      constructor
      · intro hcontra
        exact absurd hcontra (verify_mpt_proof_ne_index_error _ _ _ _ _)
      · intro hcontra
        exact absurd hcontra h
  · decide

/-- C3 witness: the boundary instance, index 4 against claimed length 5. -/
theorem c3_witness :
    (verify_storage_slot extAccept 7 0 3 4 1 okBundle = .error "invalid array index" ↔
      (5 : Nat) ≤ 4)
    ∧ verify_storage_slot extAccept 7 0 3 4 1 okBundle = .ok () :=
  c3_index_bound extAccept 7 0 3 4 1 okBundle
    { key := 0, value := 5, proof := [] } { key := 0, value := 0, proof := [] }
    rfl rfl (by decide) (by decide)

/-- C4: with every earlier check passed and the index in range, the result of
`verify_storage_slot` is exactly the second trie-proof verification, whose key
is the 32-byte big-endian encoding of `keccak(array_slot bytes) + array_index`
(unsigned 256-bit wrapping addition), whose root is the account's storage
root, and whose expected value is the commitment; its failure is the
element-proof error. -/
theorem c4_element_proof_key (ext : Externals) (ca slot comm idx sr : Nat)
    (bundle : AccountProofBundle) (p0 p1 : StorageProofEntry)
    (hsp : bundle.storage_proof = [p0, p1])
    (haddr : bundle.address = ca)
    (hacc : verify_mpt_proof ext sr (toBe 20 bundle.address)
      (.account { nonce := bundle.nonce, balance := bundle.balance,
                  storage_root := bundle.storage_hash, code_hash := bundle.code_hash })
      bundle.account_proof = .ok ())
    (hlen : verify_mpt_proof ext bundle.storage_hash (toBe 32 slot)
      (.u256 p0.value) p0.proof = .ok ())
    (hidx : idx < p0.value) :
    verify_storage_slot ext ca slot comm idx sr bundle =
      verify_mpt_proof ext bundle.storage_hash
        (toBe 32 ((ext.keccak (toBe 32 slot) % 2 ^ 256 + idx) % 2 ^ 256))
        (.b256 comm) p1.proof := by
  unfold verify_storage_slot
  rw [if_neg (fun h => h haddr.symm), hacc, hsp]
  dsimp only
  rw [hlen]
  dsimp only [List.length_cons, List.length_nil]
  rw [if_neg (by omega), if_neg (not_not_intro hidx)]

/-- C4 witness: the element-slot key computation at the concrete boundary
input. -/
theorem c4_witness :
    verify_storage_slot extAccept 7 0 3 4 1 okBundle =
      verify_mpt_proof extAccept okBundle.storage_hash
        (toBe 32 ((extAccept.keccak (toBe 32 0) % 2 ^ 256 + 4) % 2 ^ 256))
        (.b256 3) ({ key := 0, value := 0, proof := [] } : StorageProofEntry).proof :=
  c4_element_proof_key extAccept 7 0 3 4 1 okBundle
    { key := 0, value := 5, proof := [] } { key := 0, value := 0, proof := [] }
    rfl rfl (by decide) (by decide) (by decide)

/-- C5: `compute_commitment` interprets the 32-byte secret as a big-endian
256-bit integer `s` and returns the hash of the 32-byte big-endian encoding
of `s` and the hash of the 32-byte big-endian encoding of `s + 1 mod 2^256`;
it is a pure total function, so it has no error conditions and is
deterministic. -/
theorem c5_commitment_scheme (keccak : List Nat → Nat) (secret : Nat)
    (h : secret < 2 ^ 256) :
    compute_commitment keccak secret =
      (keccak (toBe 32 secret), keccak (toBe 32 ((secret + 1) % 2 ^ 256))) := by
  unfold compute_commitment
  rw [Nat.mod_eq_of_lt h]

/-- C5 witness: the commitment scheme evaluated at secret `3` under the
concrete stand-in hash. -/
theorem c5_witness :
    compute_commitment hashMock 3 =
      (hashMock (toBe 32 3), hashMock (toBe 32 ((3 + 1) % 2 ^ 256))) :=
  c5_commitment_scheme hashMock 3 (by norm_num)

/-- C10: the bit test of `compute_inclusion_root` is a 32-bit shift, so the
computation is defined (no shift overflow) exactly for sibling lists of
length at most 32; a 33rd sibling pushes the shift amount to 32, past the
`u32` width. -/
theorem c10_shift_totality (keccak : List Nat → Nat) (leaf : Nat)
    (branches : InclusionBranches) :
    (compute_inclusion_root keccak leaf branches).isSome ↔
      branches.proof.length ≤ 32 := by
  unfold compute_inclusion_root
  simpa using inclusionGo_isSome keccak branches.index branches.proof 0 leaf (by omega)

/-- C6 (amended): for branches with at most 32 siblings,
`compute_inclusion_root` performs exactly the leaf-to-root fold described by
the spec — bit `i` of the index choosing the hash order at depth `i` — and in
particular returns the leaf unchanged on an empty proof list. -/
theorem c6_inclusion_fold (keccak : List Nat → Nat) (leaf : Nat)
    (branches : InclusionBranches) (h : branches.proof.length ≤ 32) :
    compute_inclusion_root keccak leaf branches =
      some (specInclusionRoot keccak leaf branches)
    ∧ ∀ bits, compute_inclusion_root keccak leaf { index := bits, proof := [] } =
        some leaf := by
  constructor
  · exact inclusionGo_eq_spec keccak branches.index branches.proof 0 leaf (by omega)
  · intro bits
    rfl

/-- C6 counterexample: on a 33-sibling branch list the implementation aborts
(shift overflow) instead of returning the spec-described fold value, so the
claim does not hold for every `InclusionBranches` value. -/
theorem c6_counterexample :
    compute_inclusion_root (fun _ => 0) 0 { index := 0, proof := List.replicate 33 0 } ≠
      some (specInclusionRoot (fun _ => 0) 0 { index := 0, proof := List.replicate 33 0 }) := by
  decide

/-- C6 witness: the fold at a concrete one-sibling branch, and the empty-list
passthrough. -/
theorem c6_witness :
    compute_inclusion_root hashMock 5 { index := 1, proof := [7] } =
      some (specInclusionRoot hashMock 5 { index := 1, proof := [7] })
    ∧ ∀ bits, compute_inclusion_root hashMock 5 { index := bits, proof := [] } = some 5 :=
  c6_inclusion_fold hashMock 5 { index := 1, proof := [7] } (by decide)

/-- C7: `verify_mpt_proof` succeeds exactly when the underlying trie path
verification accepts the keccak hash of the raw key (unpacked to nibbles) and
the encoded value; it depends on the raw key only through its hash; and its
only failure is the single error `invalid proof`, produced whenever the path
verification rejects (malformed node, hash mismatch, wrong terminal value, or
absent key, in the external verifier). -/
theorem c7_mpt_contract (ext : Externals) (root : Nat) (k1 k2 : List Nat)
    (v : RlpValue) (nodes : List (List Nat)) :
    (verify_mpt_proof ext root k1 v nodes = .ok () ↔
      ext.trieVerify root (nibblesUnpack (toBe 32 (ext.keccak k1)))
        (some (ext.rlp v)) nodes = true)
    ∧ (verify_mpt_proof ext root k1 v nodes = .ok ()
       ∨ verify_mpt_proof ext root k1 v nodes = .error "invalid proof")
    ∧ (ext.keccak k1 = ext.keccak k2 →
       verify_mpt_proof ext root k1 v nodes = verify_mpt_proof ext root k2 v nodes) := by
  refine ⟨?_, ?_, ?_⟩
  · cases htv : ext.trieVerify root (nibblesUnpack (toBe 32 (ext.keccak k1)))
        (some (ext.rlp v)) nodes <;>
      simp [verify_mpt_proof, htv]
  · unfold verify_mpt_proof
    split
    · exact Or.inl rfl
    · exact Or.inr rfl
  · intro hk
    unfold verify_mpt_proof
    rw [hk]

/-- C7 witness: two distinct raw keys with equal stand-in hashes verify
identically. -/
theorem c7_witness :
    verify_mpt_proof extAccept 0 [1] (.u256 5) [] =
      verify_mpt_proof extAccept 0 [0, 1] (.u256 5) [] :=
  (c7_mpt_contract extAccept 0 [1] [0, 1] (.u256 5) []).2.2 (by decide)

/-- C8: whenever `process_withdrawal` succeeds, the returned record's
`exclusionSetRoot` is `0` if no inclusion branches were supplied — regardless
of every other input field — and is the inclusion root computed from the
commitment if branches were supplied. -/
theorem c8_inclusion_passthrough (ext : Externals) (input : WithdrawalInput)
    (d : WithdrawalData) (h : process_withdrawal ext input = .ok d) :
    (input.inclusion_set_branches = none → d.exclusionSetRoot = 0)
    ∧ ∀ b, input.inclusion_set_branches = some b →
        compute_inclusion_root ext.keccak
          (compute_commitment ext.keccak input.secret).1 b =
          some d.exclusionSetRoot := by
  unfold process_withdrawal at h
  cases hb : input.inclusion_set_branches with
  | none =>
    rw [hb] at h
    refine ⟨fun _ => ?_, (fun b hb2 => by cases hb2)⟩
    dsimp only at h
    split at h
    · cases h
    · injection h with h2
      rw [← h2]
  | some b =>
    rw [hb] at h
    dsimp only at h
    refine ⟨(fun hnone => by cases hnone), fun b2 hb2 => ?_⟩
    injection hb2 with hb3
    subst hb3
    split at h
    · cases h
    · split at h
      · cases h
      · next ir heq =>
          injection h with h2
          rw [← h2]
          simpa using heq

/-- C8 witness: the concrete successful run with no inclusion branches
commits a zero exclusion-set root. -/
theorem c8_witness :
    process_withdrawal extAccept okInput = .ok okData ∧ okData.exclusionSetRoot = 0 :=
  ⟨by decide, (c8_inclusion_passthrough extAccept okInput okData (by decide)).1 rfl⟩

theorem testBit_flip_ne {bits j k : Nat} (h : k ≠ j) :
    Nat.testBit (bits ^^^ 2 ^ j) k = Nat.testBit bits k := by
  rw [Nat.testBit_xor, Nat.testBit_two_pow_of_ne (fun hh => h hh.symm)]
  cases Nat.testBit bits k <;> rfl

theorem testBit_flip_self (bits j : Nat) :
    Nat.testBit (bits ^^^ 2 ^ j) j = ! Nat.testBit bits j := by
  rw [Nat.testBit_xor, Nat.testBit_two_pow_self]
  cases Nat.testBit bits j <;> rfl

theorem toBe32_swap_ne {r s : Nat} (hr : r < 2 ^ 256) (hs : s < 2 ^ 256)
    (hrs : r ≠ s) : toBe 32 r ++ toBe 32 s ≠ toBe 32 s ++ toBe 32 r := by
  intro h
  exact hrs (toBe32_lt_inj hr hs
    (List.append_inj h (by rw [toBe_length, toBe_length])).1)

/-- C9 (amended): flipping a bit of the index at a position `i` that addresses
an actual proof depth (`i < len(proof)`) changes the computed inclusion root
provided the running root at depth `i` differs from the sibling there, unless
the hash exhibits a collision; flipping a bit at any position at or beyond
`len(proof)` never changes the root. -/
theorem c9_bit_sensitivity (keccak : List Nat → Nat) (leaf bits : Nat)
    (proof : List Nat) (i : Nat)
    (hk : ∀ l, keccak l < 2 ^ 256)
    (hleaf : leaf < 2 ^ 256)
    (hsib : ∀ s ∈ proof, s < 2 ^ 256)
    (hlen : proof.length ≤ 32)
    (hi : i < proof.length)
    (hdiff : specInclusionGo keccak bits 0 leaf (proof.take i) ≠ proof.getD i 0) :
    (compute_inclusion_root keccak leaf { index := bits, proof := proof } ≠
       compute_inclusion_root keccak leaf { index := bits ^^^ 2 ^ i, proof := proof }
     ∨ ∃ x y, x ≠ y ∧ keccak x = keccak y)
    ∧ ∀ j, proof.length ≤ j →
        compute_inclusion_root keccak leaf { index := bits, proof := proof } =
          compute_inclusion_root keccak leaf { index := bits ^^^ 2 ^ j, proof := proof } := by
  constructor
  · unfold compute_inclusion_root
    dsimp only
    have hi32 : i < 32 := lt_of_lt_of_le hi hlen
    have htl : (proof.take i).length = i := by
      rw [List.length_take]
      omega
    have hsplit : proof = proof.take i ++ proof.getD i 0 :: proof.drop (i + 1) := by
      conv_lhs => rw [← List.take_append_drop i proof]
      rw [List.drop_eq_getElem_cons hi, List.getD_eq_getElem proof 0 hi]
    have hrI : ∀ b2 : Nat,
        (∀ k, k < i → Nat.testBit b2 k = Nat.testBit bits k) →
        inclusionGo keccak b2 0 leaf (proof.take i) =
          some (specInclusionGo keccak bits 0 leaf (proof.take i)) := by
      intro b2 hbk
      rw [inclusionGo_congr keccak b2 bits (proof.take i) 0 leaf
        (fun k _ hk2 => hbk k (by omega))]
      exact inclusionGo_eq_spec keccak bits (proof.take i) 0 leaf (by omega)
    have hgo1 : inclusionGo keccak bits 0 leaf (proof.take i) =
        some (specInclusionGo keccak bits 0 leaf (proof.take i)) :=
      hrI bits (fun _ _ => rfl)
    have hgo2 : inclusionGo keccak (bits ^^^ 2 ^ i) 0 leaf (proof.take i) =
        some (specInclusionGo keccak bits 0 leaf (proof.take i)) :=
      hrI (bits ^^^ 2 ^ i) (fun k hki => testBit_flip_ne (by omega))
    have hrIlt : specInclusionGo keccak bits 0 leaf (proof.take i) < 2 ^ 256 :=
      inclusionGo_lt keccak bits hk (proof.take i) 0 leaf _ hleaf hgo1
    have hslt : proof.getD i 0 < 2 ^ 256 := by
      refine hsib _ ?_
      rw [List.getD_eq_getElem proof 0 hi]
      exact List.getElem_mem hi
    conv_lhs => rw [hsplit]
    rw [inclusionGo_append, inclusionGo_append, hgo1, hgo2]
    dsimp only [Option.bind]
    rw [htl, Nat.zero_add]
    rw [inclusionGo, inclusionGo, if_neg (by omega : ¬ 32 ≤ i),
      if_neg (by omega : ¬ 32 ≤ i), testBit_flip_self bits i]
    cases hbit : Nat.testBit bits i with
    | true =>
      simp only [Bool.not_true, Bool.false_eq_true, if_true, if_false]
      by_cases hcol : keccak (toBe 32 (proof.getD i 0) ++
          toBe 32 (specInclusionGo keccak bits 0 leaf (proof.take i))) =
          keccak (toBe 32 (specInclusionGo keccak bits 0 leaf (proof.take i)) ++
            toBe 32 (proof.getD i 0))
      · exact Or.inr ⟨_, _, toBe32_swap_ne hslt hrIlt (Ne.symm hdiff), hcol⟩
      · rw [inclusionGo_congr keccak (bits ^^^ 2 ^ i) bits (proof.drop (i + 1)) (i + 1) _
          (fun k hk1 _ => testBit_flip_ne (by omega))]
        exact inclusionGo_ne keccak bits hk (proof.drop (i + 1)) (i + 1) _ _
          (hk _) (hk _) hcol (by rw [List.length_drop]; omega)
    | false =>
      simp only [Bool.not_false, Bool.false_eq_true, if_true, if_false]
      by_cases hcol : keccak (toBe 32 (specInclusionGo keccak bits 0 leaf (proof.take i)) ++
          toBe 32 (proof.getD i 0)) =
          keccak (toBe 32 (proof.getD i 0) ++
            toBe 32 (specInclusionGo keccak bits 0 leaf (proof.take i)))
      · exact Or.inr ⟨_, _, toBe32_swap_ne hrIlt hslt hdiff, hcol⟩
      · rw [inclusionGo_congr keccak (bits ^^^ 2 ^ i) bits (proof.drop (i + 1)) (i + 1) _
          (fun k hk1 _ => testBit_flip_ne (by omega))]
        exact inclusionGo_ne keccak bits hk (proof.drop (i + 1)) (i + 1) _ _
          (hk _) (hk _) hcol (by rw [List.length_drop]; omega)
  · intro j hj
    unfold compute_inclusion_root
    dsimp only
    exact inclusionGo_congr keccak bits (bits ^^^ 2 ^ j) proof 0 leaf
      (fun k _ hk2 => (testBit_flip_ne (by omega)).symm)

/-- C9 counterexample: flipping bit 7 of the index over a one-sibling list,
or bit 0 over an empty list, leaves the computed root unchanged, so the claim
fails for bit positions at or beyond the proof length. -/
theorem c9_counterexample :
    compute_inclusion_root hashMock 1 { index := 0, proof := [2] } =
      compute_inclusion_root hashMock 1 { index := 128, proof := [2] }
    ∧ compute_inclusion_root hashMock 1 { index := 0, proof := [] } =
      compute_inclusion_root hashMock 1 { index := 1, proof := [] } :=
  ⟨by decide, rfl⟩

/-- C9 witness: the sensitivity statement instantiated at a concrete
one-sibling branch, flipping bit 0. -/
theorem c9_witness :
    (compute_inclusion_root hashMock 1 { index := 0, proof := [2] } ≠
       compute_inclusion_root hashMock 1 { index := 0 ^^^ 2 ^ 0, proof := [2] }
     ∨ ∃ x y, x ≠ y ∧ hashMock x = hashMock y)
    ∧ ∀ j, ([2] : List Nat).length ≤ j →
        compute_inclusion_root hashMock 1 { index := 0, proof := [2] } =
          compute_inclusion_root hashMock 1 { index := 0 ^^^ 2 ^ j, proof := [2] } :=
  c9_bit_sensitivity hashMock 1 0 [2] 0
    (fun l => Nat.mod_lt _ (by positivity))
    (by norm_num)
    (by intro s hs; rw [List.mem_singleton] at hs; subst hs; norm_num)
    (by decide) (by decide) (by decide)

/-- C1 (amended): for every input on which `process_withdrawal` succeeds, the
ABI encoding of the returned record is eight 32-byte slots in the `sol!`
struct's declaration order `nullifier | blockHash | exclusionSetRoot |
relayerFee | recipient | relayer | contractAddress | blockNumber` — 256 bytes
in all, numbers and addresses left-padded big-endian in their slots. -/
theorem c1_abi_layout (ext : Externals) (input : WithdrawalInput) (d : WithdrawalData)
    (h : process_withdrawal ext input = .ok d) :
    WithdrawalData.abi_encode d =
      toBe 32 d.nullifier ++ toBe 32 d.blockHash ++ toBe 32 d.exclusionSetRoot ++
      toBe 32 d.relayerFee ++ toBe 32 d.recipient ++ toBe 32 d.relayer ++
      toBe 32 d.contractAddress ++ toBe 32 d.blockNumber
    ∧ (WithdrawalData.abi_encode d).length = 256 := by
  refine ⟨rfl, ?_⟩
  simp [WithdrawalData.abi_encode, toBe_length]

/-- C1 counterexample: a concrete successful withdrawal whose actual ABI
encoding differs from the layout the claim states (the claim puts
`blockNumber` right-padded in the second slot; the struct declares it last,
left-padded). -/
theorem c1_counterexample :
    process_withdrawal extAccept okInput = .ok okData
    ∧ WithdrawalData.abi_encode okData ≠ specClaimedAbiEncode okData :=
  ⟨by decide, by decide⟩

/-- C1 witness: the amended layout at the concrete successful run. -/
theorem c1_witness :
    WithdrawalData.abi_encode okData =
      toBe 32 okData.nullifier ++ toBe 32 okData.blockHash ++
      toBe 32 okData.exclusionSetRoot ++ toBe 32 okData.relayerFee ++
      toBe 32 okData.recipient ++ toBe 32 okData.relayer ++
      toBe 32 okData.contractAddress ++ toBe 32 okData.blockNumber
    ∧ (WithdrawalData.abi_encode okData).length = 256 :=
  c1_abi_layout extAccept okInput okData (by decide)
